import Mathlib

/-!
Verification development for the mcp-router core: a shallow embedding of the
query router (decision engine), provider registry, tool executor, conversation
memory, flow router and the server-builder flow state machine, with theorems
about the routing, validation and lifecycle properties of the system.

The oracle (LLM) is out of scope and is modelled by its output: every function
that in the source awaits a text response takes that response as an argument.
-/

namespace MCPRouter

/-! ## JSON values

The router exchanges untrusted JSON with the oracle.  `JValue` models the
values produced by `JSON.parse`.  Numbers keep their literal spelling: the
system only passes them through, never computes with them. -/

inductive JValue where
  | null
  | bool (b : Bool)
  | num (raw : String)
  | str (s : String)
  | arr (elems : List JValue)
  | obj (fields : List (String × JValue))

/-- Property access `o[k]` on a parsed JSON value: only objects have fields
(accessing a property of a number/string/array used by this code yields
`undefined`, modelled as `none`).  Objects built by `jsonParse` have unique
keys, so first-match lookup agrees with JavaScript semantics. -/
def getField? (v : JValue) (k : String) : Option JValue :=
  match v with
  | .obj fields => (fields.find? (fun p => p.1 == k)).map Prod.snd
  | _ => none

/-- Property assignment `o[k] = v` (and the duplicate-key rule of
`JSON.parse`): replace the value at the first occurrence of the key, or
append the pair when the key is absent. -/
def insertField : List (String × JValue) → String → JValue → List (String × JValue)
  | [], k, v => [(k, v)]
  | (k', v') :: rest, k, v =>
    if k' == k then (k', v) :: rest else (k', v') :: insertField rest k v

/-- Is a JSON numeric literal zero (any of `0`, `-0`, `0.0`, `0e9`, …)?
All mantissa digits are `'0'`. -/
def numIsZero (raw : String) : Bool :=
  let mantissa := raw.toList.takeWhile (fun c => c != 'e' && c != 'E')
  mantissa.all (fun c => c == '0' || c == '-' || c == '.')

/-- JavaScript truthiness of an optional field value (`undefined`, `null`,
`false`, `0`, `""` are falsy; objects and arrays are always truthy). -/
def jsTruthy : Option JValue → Bool
  | none => false
  | some .null => false
  | some (.bool b) => b
  | some (.num raw) => !numIsZero raw
  | some (.str s) => s != ""
  | some (.arr _) => true
  | some (.obj _) => true

/-! ## A JSON parser (`JSON.parse`)

Fuel-based recursive-descent parser over the character list.  The fuel is
proportional to the input length; every recursive call consumes one unit and
every nesting level consumes at least one character, so the parser never runs
out of fuel on the budget chosen in `jsonParse`. -/

def jsonWs (c : Char) : Bool :=
  c == ' ' || c == '\t' || c == '\n' || c == '\r'

def hexVal? (c : Char) : Option Nat :=
  if '0' ≤ c ∧ c ≤ '9' then some (c.toNat - '0'.toNat)
  else if 'a' ≤ c ∧ c ≤ 'f' then some (c.toNat - 'a'.toNat + 10)
  else if 'A' ≤ c ∧ c ≤ 'F' then some (c.toNat - 'A'.toNat + 10)
  else none

def isDigit (c : Char) : Bool := '0' ≤ c && c ≤ '9'

/-- Parse the body of a string literal (after the opening quote), handling the
JSON escapes; unescaped control characters are a syntax error, as in
`JSON.parse`. -/
def parseStringBody (fuel : Nat) (l : List Char) (acc : List Char) :
    Option (String × List Char) :=
  match fuel with
  | 0 => none
  | fuel + 1 =>
    match l with
    | [] => none
    | '"' :: rest => some (String.mk acc.reverse, rest)
    | '\\' :: esc :: rest =>
      match esc with
      | '"' => parseStringBody fuel rest ('"' :: acc)
      | '\\' => parseStringBody fuel rest ('\\' :: acc)
      | '/' => parseStringBody fuel rest ('/' :: acc)
      | 'b' => parseStringBody fuel rest ('\x08' :: acc)
      | 'f' => parseStringBody fuel rest ('\x0c' :: acc)
      | 'n' => parseStringBody fuel rest ('\n' :: acc)
      | 'r' => parseStringBody fuel rest ('\r' :: acc)
      | 't' => parseStringBody fuel rest ('\t' :: acc)
      | 'u' =>
        match rest with
        | h1 :: h2 :: h3 :: h4 :: rest' =>
          match hexVal? h1, hexVal? h2, hexVal? h3, hexVal? h4 with
          | some a, some b, some c, some d =>
            parseStringBody fuel rest' (Char.ofNat (((a * 16 + b) * 16 + c) * 16 + d) :: acc)
          | _, _, _, _ => none
        | _ => none
      | _ => none
    | c :: rest =>
      if c.toNat < 0x20 then none
      else parseStringBody fuel rest (c :: acc)

/-- Parse a JSON number; returns its literal spelling and the rest.  Follows
the JSON grammar: optional minus, `0` or a nonzero-led digit run, optional
fraction, optional exponent. -/
def parseNumber (l : List Char) : Option (String × List Char) :=
  let (sign, l1) := match l with
    | '-' :: rest => (['-'], rest)
    | _ => ([], l)
  match l1 with
  | [] => none
  | c :: _ =>
    if !isDigit c then none
    else
      let intPart := l1.takeWhile isDigit
      let l2 := l1.dropWhile isDigit
      if intPart.length > 1 && intPart.headD '0' == '0' then none
      else
        let (fracPart, l3) := match l2 with
          | '.' :: rest =>
            let ds := rest.takeWhile isDigit
            if ds.isEmpty then ([], l2) else ('.' :: ds, rest.dropWhile isDigit)
          | _ => ([], l2)
        if l2 ≠ l3 || fracPart.isEmpty then
          match fracPart, l2 with
          | [], '.' :: _ => none
          | _, _ =>
            let (expPart, l4) := match l3 with
              | e :: rest =>
                if e == 'e' || e == 'E' then
                  let (s, rest') := match rest with
                    | '+' :: r => (['+'], r)
                    | '-' :: r => (['-'], r)
                    | _ => ([], rest)
                  let ds := rest'.takeWhile isDigit
                  if ds.isEmpty then ([], l3)
                  else (e :: s ++ ds, rest'.dropWhile isDigit)
                else ([], l3)
              | [] => ([], l3)
            match l3, expPart with
            | e :: _, [] =>
              if e == 'e' || e == 'E' then none
              else some (String.mk (sign ++ intPart ++ fracPart), l3)
            | _, _ => some (String.mk (sign ++ intPart ++ fracPart ++ expPart), l4)
        else none

mutual

def parseValue (fuel : Nat) (l : List Char) : Option (JValue × List Char) :=
  match fuel with
  | 0 => none
  | fuel + 1 =>
    let l := l.dropWhile jsonWs
    match l with
    | [] => none
    | 'n' :: 'u' :: 'l' :: 'l' :: rest => some (.null, rest)
    | 't' :: 'r' :: 'u' :: 'e' :: rest => some (.bool true, rest)
    | 'f' :: 'a' :: 'l' :: 's' :: 'e' :: rest => some (.bool false, rest)
    | '"' :: rest =>
      match parseStringBody (rest.length + 1) rest [] with
      | some (s, rest') => some (.str s, rest')
      | none => none
    | '[' :: rest =>
      let rest' := rest.dropWhile jsonWs
      match rest' with
      | ']' :: rest'' => some (.arr [], rest'')
      | _ => parseArrayItems fuel rest' []
    | '\x7b' :: rest =>
      let rest' := rest.dropWhile jsonWs
      match rest' with
      | '\x7d' :: rest'' => some (.obj [], rest'')
      | _ => parseObjectMembers fuel rest' []
    | c :: _ =>
      if c == '-' || isDigit c then
        match parseNumber l with
        | some (raw, rest) => some (.num raw, rest)
        | none => none
      else none

def parseArrayItems (fuel : Nat) (l : List Char) (acc : List JValue) :
    Option (JValue × List Char) :=
  match fuel with
  | 0 => none
  | fuel + 1 =>
    match parseValue fuel l with
    | none => none
    | some (v, rest) =>
      let rest := rest.dropWhile jsonWs
      match rest with
      | ',' :: rest' => parseArrayItems fuel rest' (v :: acc)
      | ']' :: rest' => some (.arr (v :: acc).reverse, rest')
      | _ => none

def parseObjectMembers (fuel : Nat) (l : List Char) (acc : List (String × JValue)) :
    Option (JValue × List Char) :=
  match fuel with
  | 0 => none
  | fuel + 1 =>
    let l := l.dropWhile jsonWs
    match l with
    | '"' :: rest =>
      match parseStringBody (rest.length + 1) rest [] with
      | none => none
      | some (k, rest') =>
        let rest' := rest'.dropWhile jsonWs
        match rest' with
        | ':' :: rest'' =>
          match parseValue fuel rest'' with
          | none => none
          | some (v, rest3) =>
            let rest3 := rest3.dropWhile jsonWs
            match rest3 with
            | ',' :: rest4 => parseObjectMembers fuel rest4 (insertField acc k v)
            | '\x7d' :: rest4 => some (.obj (insertField acc k v), rest4)
            | _ => none
        | _ => none
    | _ => none

end

/-- Embeds `JSON.parse`: parse one value and require only whitespace after it. -/
def jsonParse (s : String) : Option JValue :=
  let l := s.toList
  match parseValue (4 * l.length + 8) l with
  | some (v, rest) => if (rest.dropWhile jsonWs).isEmpty then some v else none
  | none => none

/-! ## Provider registry (`serverRegistry.ts`)

`MCPServerConfig` and `ServerRegistry`, with the full lifecycle:
`addServer`, `getServers`, `getServerById`, `removeServer(id, deleteFiles)`,
`activateServer`, `deactivateServer`.  Persistence (`saveServers`) writes the
same in-memory list out and does not change it, so it has no model. -/

inductive ConnectionType where
  | stdio
  | sse
deriving DecidableEq, Repr

structure Connection where
  type : ConnectionType
  command : Option String := none
  args : Option (List String) := none
  url : Option String := none
deriving DecidableEq, Repr

/-- One declared parameter of a tool (the entries of the zod
`paramSchema.shape`, each carrying a type name and a description). -/
structure ParamField where
  name : String
  typeName : String
  description : String
deriving DecidableEq, Repr

structure ToolConfig where
  name : String
  description : String
  paramSchema : Option (List ParamField) := none
deriving DecidableEq, Repr

structure MCPServerConfig where
  id : String
  name : String
  description : String
  path : Option String := none
  connection : Connection
  tools : List ToolConfig
  disabled : Bool := false
deriving DecidableEq, Repr

structure ServerRegistry where
  servers : List MCPServerConfig
deriving DecidableEq, Repr

/-- Embeds `addServer`: replace in place by id, or push. -/
def addServer (reg : ServerRegistry) (config : MCPServerConfig) : ServerRegistry :=
  if reg.servers.any (fun s => s.id == config.id) then
    { servers := reg.servers.map (fun s => if s.id == config.id then config else s) }
  else
    { servers := reg.servers ++ [config] }

def getServers (reg : ServerRegistry) : List MCPServerConfig :=
  reg.servers

def getServerById (reg : ServerRegistry) (id : String) : Option MCPServerConfig :=
  reg.servers.find? (fun server => server.id == id)

/-- Embeds `path.dirname`. -/
def dirname (p : String) : String :=
  let l := p.toList
  match (l.reverse.findIdx? (· == '/')).map (fun k => l.length - 1 - k) with
  | none => "."
  | some 0 => "/"
  | some i => String.mk (l.take i)

/-- The filesystem as seen by `removeServer`: whether a directory exists
(`fs.existsSync`) and whether `fs.rmdirSync` succeeds. -/
structure FsEnv where
  existsDir : String → Bool
  rmOk : Bool

/-- Outcome of the best-effort file deletion inside `removeServer`. -/
inductive FsOutcome where
  | noAttempt
  | deleted (dir : String)
  | failedDelete (dir : String)
deriving DecidableEq, Repr

/-- Embeds `removeServer(id, deleteFiles)`: unknown id returns `false` and leaves the
registry unchanged; otherwise, when `deleteFiles` is set and the server has a
`path`, the owning directory is recursively deleted best-effort (a `rmdirSync`
failure is caught and logged), and the entry is removed in every case. -/
def removeServer (fs : FsEnv) (reg : ServerRegistry) (id : String)
    (deleteFiles : Bool := false) : ServerRegistry × Bool × FsOutcome :=
  match getServerById reg id with
  | none => (reg, false, .noAttempt)
  | some server =>
    let fsOutcome :=
      if deleteFiles then
        match server.path with
        | some p =>
          let serverDir := dirname p
          if fs.existsDir serverDir then
            if fs.rmOk then FsOutcome.deleted serverDir
            else FsOutcome.failedDelete serverDir
          else FsOutcome.noAttempt
        | none => FsOutcome.noAttempt
      else FsOutcome.noAttempt
    ({ servers := reg.servers.filter (fun s => !(s.id == id)) }, true, fsOutcome)

/-- Embeds `server.disabled = b` through the reference returned by `getServerById`:
only the first server with the id is mutated. -/
def setDisabledFirst : List MCPServerConfig → String → Bool → List MCPServerConfig
  | [], _, _ => []
  | s :: rest, id, b =>
    if s.id == id then { s with disabled := b } :: rest
    else s :: setDisabledFirst rest id b

/-- Embeds `activateServer(id)`: clear the disabled flag; `false` when the id is
unknown. -/
def activateServer (reg : ServerRegistry) (id : String) : ServerRegistry × Bool :=
  match getServerById reg id with
  | none => (reg, false)
  | some _ => ({ servers := setDisabledFirst reg.servers id false }, true)

/-- Embeds `deactivateServer(id)`: set the disabled flag; `false` when the id is
unknown. -/
def deactivateServer (reg : ServerRegistry) (id : String) : ServerRegistry × Bool :=
  match getServerById reg id with
  | none => (reg, false)
  | some _ => ({ servers := setDisabledFirst reg.servers id true }, true)

/-! ## Router catalog render (`QueryRouter.getToolsDescription`) -/

/-- The servers that feed the Router catalog:
`registry.getServers().filter(server => !server.disabled)`. -/
def catalogServers (reg : ServerRegistry) : List MCPServerConfig :=
  (getServers reg).filter (fun server => !server.disabled)

def renderParamLine (p : ParamField) : String :=
  "    - " ++ p.name ++ " (" ++ p.typeName ++ "): " ++ p.description ++ "\n"

def renderToolLines (tool : ToolConfig) : String :=
  "- " ++ tool.name ++ ": " ++ tool.description ++ "\n" ++
    (match tool.paramSchema with
     | some params =>
       if params.length > 0 then
         "  Required Parameters:\n" ++ String.join (params.map renderParamLine)
       else ""
     | none => "")

def renderServerSection (server : MCPServerConfig) : String :=
  "Server: " ++ server.name ++ " (ID: " ++ server.id ++ ")\n" ++
    "Description: " ++ server.description ++ "\n" ++
    "Available tools:\n" ++
    String.join (server.tools.map renderToolLines) ++ "\n"

/-- Embeds `getToolsDescription`: the catalog text shown to the oracle, built from
the enabled servers only. -/
def getToolsDescription (reg : ServerRegistry) : String :=
  String.join ((catalogServers reg).map renderServerSection)

/-! ## Conversation memory (`BufferMemory`) -/

inductive Role where
  | user
  | assistant
  | system
deriving DecidableEq, Repr

structure Message where
  role : Role
  content : String
deriving DecidableEq, Repr

structure BufferMemory where
  messages : List Message
  maxMessages : Nat
  includeSystemMessages : Bool
deriving DecidableEq, Repr

/-- Embeds `options.maxMessages || 10` (JavaScript `||`: `0` is falsy). -/
def orDefaultMax : Option Nat → Nat
  | some n => if n == 0 then 10 else n
  | none => 10

/-- Embeds `options.includeSystemMessages !== false`. -/
def orDefaultIncludeSystem : Option Bool → Bool
  | some false => false
  | _ => true

def mkBufferMemory (maxMessages? : Option Nat) (includeSystemMessages? : Option Bool) :
    BufferMemory :=
  { messages := []
    maxMessages := orDefaultMax maxMessages?
    includeSystemMessages := orDefaultIncludeSystem includeSystemMessages? }

/-- Embeds `addMessage`: push unless it is a system message and those are excluded,
then trim to the last `maxMessages` entries (`slice(length - maxMessages)`). -/
def addMessage (mem : BufferMemory) (m : Message) : BufferMemory :=
  if m.role != Role.system || mem.includeSystemMessages then
    let msgs := mem.messages ++ [m]
    if msgs.length > mem.maxMessages then
      { mem with messages := msgs.drop (msgs.length - mem.maxMessages) }
    else
      { mem with messages := msgs }
  else mem

def getMessages (mem : BufferMemory) : List Message :=
  mem.messages

def clearMemory (mem : BufferMemory) : BufferMemory :=
  { mem with messages := [] }

def addMessages (mem : BufferMemory) (msgs : List Message) : BufferMemory :=
  msgs.foldl addMessage mem

/-- A client-visible memory operation. -/
inductive MemOp where
  | add (m : Message)
  | clear

def runMemOp (mem : BufferMemory) (op : MemOp) : BufferMemory :=
  match op with
  | .add m => addMessage mem m
  | .clear => clearMemory mem

def runMemOps (mem : BufferMemory) (ops : List MemOp) : BufferMemory :=
  ops.foldl runMemOp mem

/-! ## Query Router (`queryRouter.ts`): JSON extraction -/

/-- The characters cleaned by `replace(/[\n\r\t\b\f\v]/g, ' ')`. -/
def isCleanedCtrl (c : Char) : Bool :=
  c == '\n' || c == '\r' || c == '\t' || c == '\x08' || c == '\x0c' || c == '\x0b'

def cleanControlList (l : List Char) : List Char :=
  l.map (fun c => if isCleanedCtrl c then ' ' else c)

def cleanControl (s : String) : String :=
  String.mk (cleanControlList s.toList)

/-- Index of the last `'}'` in the list, if any. -/
def lastCloseBraceIdx? (l : List Char) : Option Nat :=
  (l.reverse.findIdx? (· == '\x7d')).map (fun k => l.length - 1 - k)

/-- The match of `/\{[\s\S]*\}/`: scan for the leftmost position where a
match can start (a `'{'` with some `'}'` after it); the greedy `[\s\S]*`
then extends the match to the last `'}'` of the input. -/
def braceMatch : List Char → Option (List Char)
  | [] => none
  | c :: rest =>
    if c == '\x7b' then
      match lastCloseBraceIdx? rest with
      | some j => some ('\x7b' :: rest.take (j + 1))
      | none => braceMatch rest
    else braceMatch rest

/-- Embeds `extractJsonFromResponse`: match `/\{[\s\S]*\}/` and clean control
characters in the matched span; `null` when there is no match. -/
def extractJsonFromResponse (response : String) : Option String :=
  (braceMatch response.toList).map (fun m => String.mk (cleanControlList m))

/-- Scanner for `specFirstBalancedObjectSpan`: accumulate characters while
tracking the brace depth, stopping at the brace matching the opening one. -/
def balancedSpanGo : List Char → Nat → List Char → Option (List Char)
  | [], _, _ => none
  | c :: rest, depth, acc =>
    if c == '\x7b' then balancedSpanGo rest (depth + 1) (c :: acc)
    else if c == '\x7d' then
      if depth == 1 then some (c :: acc).reverse
      else balancedSpanGo rest (depth - 1) (c :: acc)
    else balancedSpanGo rest depth (c :: acc)

/-- Modelled from the spec: "Extract the first balanced object span and strip
control characters before parsing" — the substring from the first `'{'` to
its matching (depth-balanced) `'}'`.  This is the specification-side
definition that claim C6 compares `extractJsonFromResponse` against; it is
not part of the source. -/
def specFirstBalancedObjectSpan (s : String) : Option String :=
  match s.toList.dropWhile (· != '\x7b') with
  | [] => none
  | c :: rest =>
    (balancedSpanGo rest 1 [c]).map (fun span => String.mk (cleanControlList span))

/-! ## Query Router: decision parsing, validation and fallback -/

/-- Substring test (`String.prototype.includes`). -/
def containsSub (sub : List Char) : List Char → Bool
  | [] => sub.isEmpty
  | c :: rest => sub.isPrefixOf (c :: rest) || containsSub sub rest

def strContains (s pat : String) : Bool :=
  containsSub pat.toList s.toList

/-- The whitespace class `\s` of JavaScript regexes (the ASCII part). -/
def jsRegexWs (c : Char) : Bool :=
  c == ' ' || c == '\t' || c == '\n' || c == '\r' || c == '\x0c' || c == '\x0b'

/-- Try the pattern `/"response"\s*:\s*"([^"]+)"/` at the head of the list,
returning the capture group. -/
def tryResponseFieldAt (l : List Char) : Option (List Char) :=
  let pat := "\"response\"".toList
  if pat.isPrefixOf l then
    let l1 := (l.drop pat.length).dropWhile jsRegexWs
    match l1 with
    | ':' :: l2 =>
      match l2.dropWhile jsRegexWs with
      | '"' :: l3 =>
        let captured := l3.takeWhile (· != '"')
        if captured.isEmpty then none
        else if (l3.drop captured.length).head? == some '"' then some captured
        else none
      | _ => none
    | _ => none
  else none

/-- First match of `/"response"\s*:\s*"([^"]+)"/` anywhere in the text. -/
def findResponseField : List Char → Option (List Char)
  | [] => none
  | c :: rest =>
    match tryResponseFieldAt (c :: rest) with
    | some cap => some cap
    | none => findResponseField rest

/-- Embeds `replace(/\\n/g, '\n')` on the captured fallback text. -/
def unescapeNewlines : List Char → List Char
  | [] => []
  | '\\' :: 'n' :: rest => '\n' :: unescapeNewlines rest
  | c :: rest => c :: unescapeNewlines rest

/-- Embeds `p.trim().length > 0`. -/
def trimNonempty (l : List Char) : Bool :=
  l.any (fun c => !jsRegexWs c)

/-- The fallback response text: salvage the `"response"` field from the raw
oracle text, else its first paragraph that does not look like JSON, else a
generic clarification request. -/
def fallbackResponseText (userInput llmResponse : String) : String :=
  let generic := "I'm having trouble understanding how to process your request: \"" ++
    userInput ++ "\". Could you please rephrase or provide more details?"
  if llmResponse.length > 0 then
    match findResponseField llmResponse.toList with
    | some cap => String.mk (unescapeNewlines cap)
    | none =>
      match (llmResponse.splitOn "\n").filter (fun p =>
          trimNonempty p.toList &&
          !strContains p "\x7b" &&
          !strContains p "\x7d" &&
          !strContains p "\"action\"" &&
          !strContains p "\"reasoning\"") with
      | p :: _ => p
      | [] => generic
  else generic

/-- The fallback `direct_response` decision synthesized by `routeQuery`'s
catch block. -/
def fallbackDecision (userInput llmResponse : String) : JValue :=
  .obj [("action", .str "direct_response"),
        ("response", .str (fallbackResponseText userInput llmResponse)),
        ("reasoning", .str "Error parsing LLM response, using fallback")]

/-- Embeds `parsedResponse.action === a` (the `switch` compares with `===`, so a
non-string action matches no case). -/
def actionIs (parsed : JValue) (a : String) : Bool :=
  match getField? parsed "action" with
  | some (.str s) => s == a
  | _ => false

def managementActions : List String :=
  ["activate_server", "deactivate_server", "remove_server", "install_server"]

def actionIsManagement (parsed : JValue) : Bool :=
  match getField? parsed "action" with
  | some (.str s) => managementActions.contains s
  | _ => false

/-- Embeds `registry.getServerById(tool.serverId)` where the id is an untrusted JSON
value: `find` compares with `===`, so only a string id can match. -/
def getServerByJsId (reg : ServerRegistry) (id? : Option JValue) : Option MCPServerConfig :=
  match id? with
  | some (.str s) => getServerById reg s
  | _ => none

/-- Embeds `server.tools.find(t => t.name === tool.name)` with an untrusted name. -/
def findToolOnServer (server : MCPServerConfig) (name? : Option JValue) : Option ToolConfig :=
  match name? with
  | some (.str n) => server.tools.find? (fun t => t.name == n)
  | _ => none

/-- Embeds `parseToolDecisionResponse`: clean control characters, `JSON.parse`,
check the required top-level fields, then the action-specific validation —
`call_tool` resolves server and tool against the live registry and defaults
absent `parameters`/`missing_parameters`; management actions require a server
id.  Every failure is a thrown error (`Except.error`). -/
def parseToolDecisionResponse (reg : ServerRegistry) (jsonString : String) :
    Except String JValue :=
  let cleanedJson := cleanControl jsonString
  match jsonParse cleanedJson with
  | none => .error "SyntaxError: Unexpected token in JSON"
  | some parsed =>
    if !(jsTruthy (getField? parsed "action")) ||
       !(jsTruthy (getField? parsed "response")) ||
       !(jsTruthy (getField? parsed "reasoning")) then
      .error "Missing required fields in LLM response"
    else if actionIs parsed "call_tool" then
      let tool? := getField? parsed "tool"
      let serverId? := tool?.bind (fun t => getField? t "serverId")
      let toolName? := tool?.bind (fun t => getField? t "name")
      if !(jsTruthy tool?) || !(jsTruthy serverId?) || !(jsTruthy toolName?) then
        .error "Missing tool information in LLM response"
      else
        match getServerByJsId reg serverId? with
        | none => .error "Server not found"
        | some server =>
          match findToolOnServer server toolName? with
          | none => .error "Tool not found on server"
          | some _ =>
            match parsed, tool? with
            | JValue.obj parsedFields, some (JValue.obj toolFields) =>
              let toolFields :=
                if jsTruthy (getField? (JValue.obj toolFields) "parameters") then toolFields
                else insertField toolFields "parameters" (JValue.obj [])
              let toolFields :=
                if jsTruthy (getField? (JValue.obj toolFields) "missing_parameters") then
                  toolFields
                else insertField toolFields "missing_parameters" (JValue.arr [])
              .ok (JValue.obj (insertField parsedFields "tool" (JValue.obj toolFields)))
            | _, _ =>
              -- a truthy `tool.serverId` forces `tool` (and hence `parsed`) to
              -- be objects, so this arm never runs
              .error "unreachable"
    else if actionIsManagement parsed then
      let server? := getField? parsed "server"
      if !(jsTruthy server?) || !(jsTruthy (server?.bind (fun s => getField? s "id"))) then
        .error "Missing server ID for management action"
      else .ok parsed
    else .ok parsed

/-- Embeds `this.extractJsonFromResponse(llmResponse) || llmResponse` (a successful
match is never the empty string, so `||` agrees with `getD`). -/
def extractedJsonOrRaw (llmResponse : String) : String :=
  match extractJsonFromResponse llmResponse with
  | some s => s
  | none => llmResponse

/-- Embeds `routeQuery`, from the oracle's raw response on: extract the JSON span,
parse and validate it; any thrown error is caught and replaced by the
fallback `direct_response` decision. -/
def routeQuery (reg : ServerRegistry) (userInput llmResponse : String) : JValue :=
  match parseToolDecisionResponse reg (extractedJsonOrRaw llmResponse) with
  | .ok decision => decision
  | .error _ => fallbackDecision userInput llmResponse

/-! ## Tool executor (`toolExecutor.ts`) -/

/-- Transport-session events, in order of occurrence: connecting a stdio
transport spawns the provider process, connecting an SSE transport opens the
stream. -/
inductive ExecEvent where
  | spawnStdio (command : String) (args : List String)
  | sseConnect (url : String)
  | callTool (name : String) (args : List (String × JValue))
  | closeTransport

/-- The remote side of a session: whether connect/handshake succeeds and the
structured result of the call (a provider-reported error is still a result). -/
structure RemoteEnv where
  connectOk : Bool
  callResult : JValue

def executeViaStdio (env : RemoteEnv) (serverConfig : MCPServerConfig)
    (toolName : String) (parameters : List (String × JValue)) :
    List ExecEvent × Except String JValue :=
  let command := serverConfig.connection.command.getD ""
  let args := serverConfig.connection.args.getD []
  if env.connectOk then
    ([.spawnStdio command args, .callTool toolName parameters, .closeTransport],
     .ok env.callResult)
  else
    ([.spawnStdio command args, .closeTransport], .error "failed to connect")

def executeViaSse (env : RemoteEnv) (serverConfig : MCPServerConfig)
    (toolName : String) (parameters : List (String × JValue)) :
    List ExecEvent × Except String JValue :=
  let url := serverConfig.connection.url.getD ""
  if env.connectOk then
    ([.sseConnect url, .callTool toolName parameters, .closeTransport],
     .ok env.callResult)
  else
    ([.sseConnect url, .closeTransport], .error "failed to connect")

def executeOnServer (env : RemoteEnv) (serverConfig : MCPServerConfig)
    (toolName : String) (parameters : List (String × JValue)) :
    List ExecEvent × Except String JValue :=
  match serverConfig.connection.type with
  | .stdio => executeViaStdio env serverConfig toolName parameters
  | .sse => executeViaSse env serverConfig toolName parameters

/-- Embeds `ToolExecutor.execute`: resolve the server and the tool against the
registry before any session is opened; only then delegate to the transport. -/
def execute (env : RemoteEnv) (reg : ServerRegistry) (serverId toolName : String)
    (parameters : List (String × JValue)) : List ExecEvent × Except String JValue :=
  match getServerById reg serverId with
  | none => ([], .error ("Server with ID " ++ serverId ++ " not found"))
  | some serverConfig =>
    match serverConfig.tools.find? (fun t => t.name == toolName) with
    | none => ([], .error ("Tool " ++ toolName ++ " not found on server " ++ serverId))
    | some _ => executeOnServer env serverConfig toolName parameters

/-! ## Flow registry and flow router (`flowRegistry.ts`, `flowRouter.ts`) -/

structure Flow where
  id : String
  name : String
  description : String
deriving DecidableEq, Repr

structure FlowRegistry where
  flows : List Flow
deriving DecidableEq, Repr

def addFlow (freg : FlowRegistry) (flow : Flow) : FlowRegistry :=
  if freg.flows.any (fun f => f.id == flow.id) then
    { flows := freg.flows.map (fun f => if f.id == flow.id then flow else f) }
  else
    { flows := freg.flows ++ [flow] }

def getFlowById (freg : FlowRegistry) (id : String) : Option Flow :=
  freg.flows.find? (fun flow => flow.id == id)

/-- Embeds `registry.getFlowById(decision.flowId)` with an untrusted JSON value:
`===` against the string ids, so only a string can match. -/
def getFlowByJsId (freg : FlowRegistry) (id? : Option JValue) : Option Flow :=
  match id? with
  | some (.str s) => getFlowById freg s
  | _ => none

structure FlowRoutingResult where
  shouldUseFlow : Bool
  flowId : Option JValue := none
  params : Option JValue := none
  directResponse : Option String := none

def toLowerStr (s : String) : String :=
  String.mk (s.toList.map Char.toLower)

/-- The keyword guard at the top of `FlowRouter.routeQuery`: server-listing
requests never trigger a flow. -/
def serverListingGuard (userInput : String) : Bool :=
  let lo := toLowerStr userInput
  strContains lo "list mcp servers" ||
  strContains lo "list the mcp servers" ||
  strContains lo "list servers for this" ||
  strContains lo "show mcp servers" ||
  strContains lo "show the mcp servers" ||
  strContains lo "what mcp servers" ||
  (strContains lo "list" && strContains lo "servers" &&
    (strContains lo "app" || strContains lo "application" || strContains lo "program"))

/-- Template-literal rendering `${v}` of a JSON value (arrays render as their
joined elements; the approximation here does not affect any routing result). -/
def jsTemplateShow : Option JValue → String
  | none => "undefined"
  | some .null => "null"
  | some (.bool true) => "true"
  | some (.bool false) => "false"
  | some (.num raw) => raw
  | some (.str s) => s
  | some (.arr _) => ""
  | some (.obj _) => "[object Object]"

/-- Embeds `FlowRouter.routeQuery`, from the oracle's classification response on:
keyword guard, `/\{[\s\S]*\}/` extraction, `JSON.parse` (a throw is caught as
`shouldUseFlow: false`), `typeof shouldUseFlow` check, and flow-id validation
against the flow registry. -/
def flowRouteQuery (freg : FlowRegistry) (userInput llmResponse : String) :
    FlowRoutingResult :=
  if serverListingGuard userInput then { shouldUseFlow := false }
  else
    match braceMatch llmResponse.toList with
    | none => { shouldUseFlow := false }
    | some span =>
      match jsonParse (String.mk span) with
      | none => { shouldUseFlow := false }
      | some decision =>
        match getField? decision "shouldUseFlow" with
        | some (.bool b) =>
          if b then
            match getFlowByJsId freg (getField? decision "flowId") with
            | none =>
              { shouldUseFlow := false
                directResponse := some ("I couldn't find a flow with ID \"" ++
                  jsTemplateShow (getField? decision "flowId") ++
                  "\". Let me try to help you another way.") }
            | some _ =>
              { shouldUseFlow := true
                flowId := getField? decision "flowId"
                params := some (match getField? decision "params" with
                  | some p => if jsTruthy (some p) then p else JValue.obj []
                  | none => JValue.obj []) }
          else { shouldUseFlow := false }
        | _ => { shouldUseFlow := false }

/-! ## The server-builder flow stage machine (`defaultFlows.ts`)

`serverBuilderFlow.execute` reads `params.stage || 'intro'` and reassigns the
local `stage` variable inside the stage's `switch` arm; the returned metadata
carries the final value.  `FlowEnv` captures the oracle- and user-dependent
conditions each arm branches on. -/

structure FlowEnv where
  /-- In `gathering_requirements`: the oracle's reply contains "generate the
  code" / "create the server" / "write the code". -/
  gatherReady : Bool
  /-- In `code_generation`: the intent pass answered `"create_mcp_server"`. -/
  createIntent : Bool
  /-- In `save_code`: both filesystem tool calls succeeded. -/
  saveOk : Bool
  /-- In `register_server`: the intent pass answered `"register_server"`. -/
  registerIntent : Bool
  /-- In `register_server`: `serverDetails.serverConfig` is present. -/
  hasServerConfig : Bool

/-- The stage after one execution of `serverBuilderFlow.execute`, mirroring
the `stage = …` assignments of each `switch` arm (including the
`register_server` arm, whose conditional reassignment to `code_generation` is
overwritten by the unconditional `stage = 'complete'` that follows it). -/
def serverBuilderNextStage (env : FlowEnv) (stage0 : String) : String :=
  if stage0 == "intro" then "gathering_requirements"
  else if stage0 == "gathering_requirements" then
    if env.gatherReady then "code_generation" else stage0
  else if stage0 == "code_generation" then
    if env.createIntent then "save_code" else stage0
  else if stage0 == "save_code" then
    if env.saveOk then "register_server" else stage0
  else if stage0 == "register_server" then
    let _stage1 :=
      if env.registerIntent then
        (if env.hasServerConfig then stage0 else "code_generation")
      else stage0
    "complete"
  else stage0

/-- Run a sequence of stage executions from a starting stage. -/
def runStages (stage0 : String) (envs : List FlowEnv) : String :=
  envs.foldl (fun s env => serverBuilderNextStage env s) stage0

/-- The declared stages, in flow order. -/
def builderStages : List String :=
  ["intro", "gathering_requirements", "code_generation", "save_code",
   "register_server", "complete"]

/-- Position of a stage in the flow order (6 for anything undeclared). -/
def stageIdx (s : String) : Nat :=
  (builderStages.indexOf s)

/-! ## Concrete fixtures used by witnesses and counterexamples -/

/-- Keep the last `n` entries of a list (`slice(length - n)`), the shape of
`BufferMemory`'s trim. -/
def keepLast (n : Nat) (l : List α) : List α :=
  l.drop (l.length - n)

def calcAddTool : ToolConfig :=
  { name := "add", description := "Add two numbers",
    paramSchema := some [⟨"a", "ZodNumber", "First number"⟩, ⟨"b", "ZodNumber", "Second number"⟩] }

def calcServer : MCPServerConfig :=
  { id := "calculator", name := "Calculator",
    description := "A server that provides mathematical operations",
    path := some "./servers/calculator/calculator-server.js",
    connection := { type := .stdio, command := some "node", args := some [] },
    tools := [calcAddTool] }

def demoReg : ServerRegistry := { servers := [calcServer] }

def disabledCalcReg : ServerRegistry := { servers := [{ calcServer with disabled := true }] }

def demoRemote : RemoteEnv := { connectOk := true, callResult := .null }

/-- A filesystem where every directory exists but `rmdirSync` fails. -/
def demoFs : FsEnv := { existsDir := fun _ => true, rmOk := false }

/-- A well-formed oracle decision invoking `calculator.add`, embedded in
surrounding prose (no `'}'` after the object). -/
def callToolResp : String :=
  "Sure, here is my decision: \x7b\"action\":\"call_tool\",\"response\":\"I will add them.\",\"reasoning\":\"math\",\"tool\":\x7b\"serverId\":\"calculator\",\"name\":\"add\",\"parameters\":\x7b\"a\":5,\"b\":3\x7d,\"missing_parameters\":[]\x7d\x7d Done."

/-- A well-formed decision naming a provider id absent from the registry. -/
def unknownServerResp : String :=
  "\x7b\"action\":\"call_tool\",\"response\":\"ok\",\"reasoning\":\"r\",\"tool\":\x7b\"serverId\":\"weather\",\"name\":\"forecast\",\"parameters\":\x7b\x7d,\"missing_parameters\":[]\x7d\x7d"

/-- A complete JSON object followed by trailing text that contains `'}'`. -/
def tailBraceResp : String := "\x7b\"a\":1\x7d tail\x7d"

def demoFlowReg : FlowRegistry :=
  { flows := [⟨"server_builder", "Server Builder", "Create new MCP servers through conversation"⟩] }

/-- A flow-routing decision naming an unregistered flow id. -/
def unknownFlowResp : String :=
  "\x7b\"shouldUseFlow\":true,\"flowId\":\"bogus\",\"params\":\x7b\x7d,\"reasoning\":\"r\"\x7d"

/-! ## The server-builder stage machine: forward-only, `complete` absorbing -/

theorem builder_step (env : FlowEnv) (s : String) (hs : s ∈ builderStages) :
    serverBuilderNextStage env s ∈ builderStages ∧
    stageIdx s ≤ stageIdx (serverBuilderNextStage env s) ∧
    (serverBuilderNextStage env s = "complete" → s = "register_server" ∨ s = "complete") := by
  obtain ⟨g, ci, so, ri, hc⟩ := env
  simp only [builderStages, List.mem_cons, List.not_mem_nil, or_false] at hs
  rcases hs with h | h | h | h | h | h <;> subst h <;>
    cases g <;> cases ci <;> cases so <;> cases ri <;> cases hc <;> decide

theorem runStages_mem (envs : List FlowEnv) (s : String) (hs : s ∈ builderStages) :
    runStages s envs ∈ builderStages := by
  induction envs generalizing s with
  | nil => simpa [runStages] using hs
  | cons e es ih =>
    simp only [runStages, List.foldl_cons]
    exact ih _ (builder_step e s hs).1

theorem runStages_complete_absorbing (envs : List FlowEnv) :
    runStages "complete" envs = "complete" := by
  induction envs with
  | nil => rfl
  | cons e es ih =>
    simp only [runStages, List.foldl_cons]
    have h : serverBuilderNextStage e "complete" = "complete" := rfl
    rw [h]
    exact ih

/-- C4: along every run of the server-builder flow starting at `intro`, the
stage stays within the declared chain and only moves forward
(`stageIdx` never decreases); `complete` is reached only from
`register_server` (or from `complete` itself), and `complete` is absorbing
under arbitrarily many further executions. -/
theorem serverBuilder_stage_discipline (envs : List FlowEnv) (env : FlowEnv) :
    runStages "intro" envs ∈ builderStages ∧
    stageIdx (runStages "intro" envs) ≤
      stageIdx (serverBuilderNextStage env (runStages "intro" envs)) ∧
    (serverBuilderNextStage env (runStages "intro" envs) = "complete" →
      runStages "intro" envs = "register_server" ∨ runStages "intro" envs = "complete") ∧
    (∀ envs2 : List FlowEnv, runStages "complete" envs2 = "complete") := by
  have hmem := runStages_mem envs "intro" (by simp [builderStages])
  have h := builder_step env _ hmem
  exact ⟨hmem, h.2.1, h.2.2, runStages_complete_absorbing⟩

theorem serverBuilder_stage_discipline_witness :
    runStages "intro" [⟨true, true, true, true, true⟩, ⟨true, true, true, true, true⟩,
        ⟨true, true, true, true, true⟩, ⟨true, true, true, true, true⟩] = "register_server" ∨
    runStages "intro" [⟨true, true, true, true, true⟩, ⟨true, true, true, true, true⟩,
        ⟨true, true, true, true, true⟩, ⟨true, true, true, true, true⟩] = "complete" := by
  exact (serverBuilder_stage_discipline
    [⟨true, true, true, true, true⟩, ⟨true, true, true, true, true⟩,
      ⟨true, true, true, true, true⟩, ⟨true, true, true, true, true⟩]
    ⟨true, true, true, true, true⟩).2.2.1 (by decide)

/-! ## Conversation memory: FIFO eviction and the capacity bound -/

theorem keepLast_eq_reverse (n : Nat) (l : List α) :
    keepLast n l = (l.reverse.take n).reverse := by
  simp [keepLast, List.take_reverse]

theorem keepLast_append (n : Nat) (l r : List α) :
    keepLast n (keepLast n l ++ r) = keepLast n (l ++ r) := by
  simp only [keepLast_eq_reverse]
  congr 1
  simp only [List.reverse_append, List.reverse_reverse,
    List.take_append_eq_append_take, List.length_reverse]
  congr 1
  rw [List.take_take, inf_eq_min, min_eq_left (Nat.sub_le n r.length)]

theorem keepLast_length_le (n : Nat) (l : List α) : (keepLast n l).length ≤ n := by
  simp only [keepLast, List.length_drop]
  omega

theorem addMessage_accepted (mem : BufferMemory) (m : Message)
    (h : (m.role != Role.system || mem.includeSystemMessages) = true) :
    addMessage mem m =
      { mem with messages := keepLast mem.maxMessages (mem.messages ++ [m]) } := by
  by_cases hgt : (mem.messages ++ [m]).length > mem.maxMessages
  · simp only [List.length_append, List.length_singleton] at hgt
    simp [addMessage, keepLast, h, hgt]
  · simp only [List.length_append, List.length_singleton] at hgt
    simp [addMessage, keepLast, h, hgt]
    rw [Nat.sub_eq_zero_of_le (by omega), List.drop_zero]

theorem addMessages_keepLast (msgs : List Message) :
    ∀ (mem : BufferMemory),
      (∀ m ∈ msgs, (m.role != Role.system || mem.includeSystemMessages) = true) →
      mem.messages.length ≤ mem.maxMessages →
      addMessages mem msgs =
        { mem with messages := keepLast mem.maxMessages (mem.messages ++ msgs) } := by
  induction msgs with
  | nil =>
    intro mem _ hlen
    simp [addMessages, keepLast, Nat.sub_eq_zero_of_le hlen]
  | cons m ms ih =>
    intro mem h hlen
    have hm : (m.role != Role.system || mem.includeSystemMessages) = true :=
      h m (List.mem_cons_self m ms)
    simp only [addMessages, List.foldl_cons]
    rw [addMessage_accepted mem m hm]
    have ih' := ih { mem with messages := keepLast mem.maxMessages (mem.messages ++ [m]) }
      (fun m' hm' => h m' (List.mem_cons_of_mem m hm'))
      (keepLast_length_le _ _)
    simp only [addMessages] at ih'
    rw [ih']
    simp only [keepLast_append]
    rw [List.append_assoc, List.singleton_append]

theorem runMemOp_bound (mem : BufferMemory) (op : MemOp)
    (hlen : mem.messages.length ≤ mem.maxMessages) :
    (runMemOp mem op).messages.length ≤ (runMemOp mem op).maxMessages ∧
    (runMemOp mem op).maxMessages = mem.maxMessages := by
  cases op with
  | clear => exact ⟨by simpa [runMemOp, clearMemory], rfl⟩
  | add m =>
    by_cases hacc : (m.role != Role.system || mem.includeSystemMessages) = true
    · have h := addMessage_accepted mem m hacc
      simp only [runMemOp, h]
      exact ⟨keepLast_length_le _ _, trivial⟩
    · have hacc' : (m.role != Role.system || mem.includeSystemMessages) = false := by
        simpa using hacc
      simp only [runMemOp, addMessage, hacc', Bool.false_eq_true, if_false]
      exact ⟨hlen, trivial⟩

theorem runMemOps_bound (ops : List MemOp) :
    ∀ (mem : BufferMemory), mem.messages.length ≤ mem.maxMessages →
      (runMemOps mem ops).messages.length ≤ (runMemOps mem ops).maxMessages ∧
      (runMemOps mem ops).maxMessages = mem.maxMessages := by
  induction ops with
  | nil => intro mem hlen; exact ⟨hlen, rfl⟩
  | cons op ops ih =>
    intro mem hlen
    simp only [runMemOps, List.foldl_cons]
    have h1 := runMemOp_bound mem op hlen
    have h2 := ih (runMemOp mem op) (h1.2 ▸ h1.1)
    simp only [runMemOps] at h2
    exact ⟨h2.1, h2.2.trans h1.2⟩

/-- C5 (amended): for a memory of capacity `c ≥ 1` that keeps system turns
(the default) — or, more generally, whenever none of the appended turns is
dropped by the system-message filter — appending `c+1` turns to a fresh
memory leaves exactly the last `c` of them (the oldest is evicted first);
the stored list never exceeds `c` entries across any operation sequence; and
`clear` empties the log. -/
theorem bufferMemory_capacity_fifo (c : Nat) (inc? : Option Bool) (msgs : List Message)
    (hc : c ≠ 0) (hlen : msgs.length = c + 1)
    (hacc : ∀ m ∈ msgs, (m.role != Role.system || orDefaultIncludeSystem inc?) = true) :
    getMessages (addMessages (mkBufferMemory (some c) inc?) msgs) = msgs.drop 1 ∧
    (∀ ops : List MemOp, (getMessages (runMemOps (mkBufferMemory (some c) inc?) ops)).length ≤ c) ∧
    (∀ mem : BufferMemory, getMessages (clearMemory mem) = []) := by
  have hmax : orDefaultMax (some c) = c := by
    simp only [orDefaultMax]
    rw [if_neg]
    simpa using hc
  refine ⟨?_, ?_, fun _ => rfl⟩
  · have h := addMessages_keepLast msgs (mkBufferMemory (some c) inc?) hacc
      (by simp [mkBufferMemory])
    rw [h]
    simp only [getMessages, mkBufferMemory, keepLast, List.nil_append, hlen, hmax]
    congr 1
    omega
  · intro ops
    have h := runMemOps_bound ops (mkBufferMemory (some c) inc?) (by simp [mkBufferMemory])
    have hm : (runMemOps (mkBufferMemory (some c) inc?) ops).maxMessages = c := by
      rw [h.2]; simpa [mkBufferMemory] using hmax
    exact le_of_le_of_eq (h.1) hm

theorem bufferMemory_capacity_fifo_witness :
    getMessages (addMessages (mkBufferMemory (some 2) none)
        [⟨Role.user, "one"⟩, ⟨Role.assistant, "two"⟩, ⟨Role.user, "three"⟩]) =
      [⟨Role.assistant, "two"⟩, ⟨Role.user, "three"⟩] := by
  have h := bufferMemory_capacity_fifo 2 none
      [⟨Role.user, "one"⟩, ⟨Role.assistant, "two"⟩, ⟨Role.user, "three"⟩]
      (by decide) (by decide) (by decide)
  exact h.1.trans (by decide)

/-- C5 counterexample: a `BufferMemory` of capacity 1 configured with
`includeSystemMessages: false` drops appended system turns entirely, so
appending capacity+1 turns leaves 0 turns, not capacity. -/
theorem bufferMemory_system_drop_counterexample :
    getMessages (addMessages (mkBufferMemory (some 1) (some false))
        [⟨Role.system, "a"⟩, ⟨Role.system, "b"⟩]) = [] ∧
    (getMessages (addMessages (mkBufferMemory (some 1) (some false))
        [⟨Role.system, "a"⟩, ⟨Role.system, "b"⟩])).length ≠ 1 := by
  constructor <;> decide

/-! ## Registry removal (`removeServer`) -/

/-- C8: `removeServer` on a present id removes the entry and returns `true`;
with `deleteFiles` and a `path` it issues a recursive delete of the owning
directory, and an `rmdirSync` failure (`rmOk = false`) is caught without
blocking the removal; with `deleteFiles = false` no filesystem action
happens; an unknown id returns `false` and leaves the registry unchanged. -/
theorem removeServer_lifecycle (fs : FsEnv) (reg : ServerRegistry) (id : String) :
    (∀ server p, getServerById reg id = some server → server.path = some p →
        fs.existsDir (dirname p) = true →
        removeServer fs reg id true =
          ({ servers := reg.servers.filter (fun s => !(s.id == id)) }, true,
            if fs.rmOk then FsOutcome.deleted (dirname p)
            else FsOutcome.failedDelete (dirname p))) ∧
    (∀ server, getServerById reg id = some server →
        removeServer fs reg id false =
          ({ servers := reg.servers.filter (fun s => !(s.id == id)) }, true,
            FsOutcome.noAttempt)) ∧
    (getServerById reg id = none →
        ∀ deleteFiles, removeServer fs reg id deleteFiles = (reg, false, .noAttempt)) ∧
    (∀ deleteFiles server, getServerById reg id = some server →
        ∀ s', s' ∈ (removeServer fs reg id deleteFiles).1.servers → s'.id ≠ id) := by
  refine ⟨?_, ?_, ?_, ?_⟩
  · intro server p hsrv hp hex
    simp [removeServer, hsrv, hp, hex]
  · intro server hsrv
    simp [removeServer, hsrv]
  · intro hnone deleteFiles
    simp [removeServer, hnone]
  · intro deleteFiles server hsrv s' hmem
    simp only [removeServer, hsrv] at hmem
    have := (List.mem_filter.mp hmem).2
    simpa using this

theorem removeServer_lifecycle_witness :
    removeServer demoFs demoReg "calculator" true =
      ({ servers := [] }, true, FsOutcome.failedDelete "./servers/calculator") := by
  have h := (removeServer_lifecycle demoFs demoReg "calculator").1 calcServer
    "./servers/calculator/calculator-server.js" (by decide) (by decide) (by decide)
  exact h.trans (by decide)

/-! ## Tool executor fail-fast (`execute`) -/

/-- C9: when the provider id is absent from the registry, or the tool name is
absent from the resolved provider's tool list, `execute` fails with a
not-found error and the session-event trace is empty — no process spawn and
no stream connection happens. -/
theorem execute_failfast (env : RemoteEnv) (reg : ServerRegistry)
    (serverId toolName : String) (parameters : List (String × JValue)) :
    (getServerById reg serverId = none →
      execute env reg serverId toolName parameters =
        ([], .error ("Server with ID " ++ serverId ++ " not found"))) ∧
    (∀ serverConfig, getServerById reg serverId = some serverConfig →
      serverConfig.tools.find? (fun t => t.name == toolName) = none →
      execute env reg serverId toolName parameters =
        ([], .error ("Tool " ++ toolName ++ " not found on server " ++ serverId))) := by
  constructor
  · intro hnone
    simp [execute, hnone]
  · intro serverConfig hsrv htool
    simp [execute, hsrv, htool]

theorem execute_failfast_witness :
    execute demoRemote demoReg "weather" "forecast" [] =
      ([], .error "Server with ID weather not found") ∧
    execute demoRemote demoReg "calculator" "subtract" [] =
      ([], .error "Tool subtract not found on server calculator") := by
  constructor
  · exact ((execute_failfast demoRemote demoReg "weather" "forecast" []).1 (by decide)).trans
      (by rfl)
  · exact ((execute_failfast demoRemote demoReg "calculator" "subtract" []).2
      { calcServer with disabled := false } (by decide) (by decide)).trans (by rfl)

/-! ## Catalog render and the enable/disable lifecycle -/

theorem setDisabledFirst_map_id (l : List MCPServerConfig) (id : String) (b : Bool) :
    (setDisabledFirst l id b).map (fun s => s.id) = l.map (fun s => s.id) := by
  induction l with
  | nil => rfl
  | cons s rest ih =>
    simp only [setDisabledFirst]
    split
    · simp
    · simp [ih]

theorem setDisabledFirst_enabled_ne (l : List MCPServerConfig) (id : String)
    (hnd : (l.map (fun s => s.id)).Nodup) :
    ∀ x ∈ setDisabledFirst l id true, x.disabled = false → x.id ≠ id := by
  induction l with
  | nil => simp [setDisabledFirst]
  | cons s rest ih =>
    simp only [List.map_cons, List.nodup_cons] at hnd
    obtain ⟨hs, hrest⟩ := hnd
    simp only [setDisabledFirst]
    by_cases hb : (s.id == id) = true
    · rw [if_pos hb]
      intro x hx hdis
      rcases List.mem_cons.mp hx with hx | hx
      · subst hx
        simp at hdis
      · intro hxid
        apply hs
        have : x.id ∈ rest.map (fun s => s.id) := List.mem_map_of_mem _ hx
        rw [hxid] at this
        rwa [show s.id = id from by simpa using hb]
    · rw [if_neg hb]
      intro x hx hdis
      rcases List.mem_cons.mp hx with hx | hx
      · subst hx
        simpa using hb
      · exact ih hrest x hx hdis

theorem setDisabledFirst_activate_mem (l : List MCPServerConfig) (id : String)
    (hex : ∃ x ∈ l, x.id = id) :
    ∃ y ∈ setDisabledFirst l id false, y.id = id ∧ y.disabled = false := by
  induction l with
  | nil => simp at hex
  | cons s rest ih =>
    by_cases hb : (s.id == id) = true
    · refine ⟨{ s with disabled := false }, ?_, ?_, rfl⟩
      · simp [setDisabledFirst, hb]
      · simpa using hb
    · obtain ⟨x, hx, hxid⟩ := hex
      rcases List.mem_cons.mp hx with hx | hx
      · subst hx
        exact absurd hxid (by simpa using hb)
      · obtain ⟨y, hy, hyid, hydis⟩ := ih ⟨x, hx, hxid⟩
        refine ⟨y, ?_, hyid, hydis⟩
        simp only [setDisabledFirst, if_neg hb]
        exact List.mem_cons_of_mem _ hy

/-- C7: on a registry with unique provider ids, `deactivateServer` on an
existing provider reports success, removes the provider from the catalog
(`catalogServers`/`getToolsDescription`) without removing it from
`getServers`, the catalog render no longer depends on that provider at all,
and `activateServer` restores it to the catalog. -/
theorem deactivate_excludes_from_catalog (reg : ServerRegistry) (id : String)
    (server : MCPServerConfig)
    (hnd : (reg.servers.map (fun s => s.id)).Nodup)
    (hsrv : getServerById reg id = some server) :
    (deactivateServer reg id).2 = true ∧
    (∀ s' ∈ catalogServers (deactivateServer reg id).1, s'.id ≠ id) ∧
    (∃ s' ∈ getServers (deactivateServer reg id).1, s'.id = id) ∧
    getToolsDescription (deactivateServer reg id).1 =
      getToolsDescription
        { servers := (deactivateServer reg id).1.servers.filter (fun s' => !(s'.id == id)) } ∧
    (∃ s' ∈ catalogServers (activateServer (deactivateServer reg id).1 id).1, s'.id = id) := by
  have hdeact : deactivateServer reg id =
      ({ servers := setDisabledFirst reg.servers id true }, true) := by
    simp [deactivateServer, hsrv]
  have henabled := setDisabledFirst_enabled_ne reg.servers id hnd
  have hexid : ∃ s' ∈ setDisabledFirst reg.servers id true, s'.id = id := by
    have hsrv' : reg.servers.find? (fun s => s.id == id) = some server := hsrv
    have hp := List.find?_some hsrv'
    have hm := List.mem_of_find?_eq_some hsrv'
    have hmap : server.id ∈ (setDisabledFirst reg.servers id true).map (fun s => s.id) := by
      rw [setDisabledFirst_map_id]
      exact List.mem_map_of_mem _ hm
    obtain ⟨y, hy, hyid⟩ := List.mem_map.mp hmap
    exact ⟨y, hy, by rw [hyid]; simpa using hp⟩
  refine ⟨by rw [hdeact], ?_, ?_, ?_, ?_⟩
  · intro s' hs'
    rw [hdeact] at hs'
    simp only [catalogServers, getServers, List.mem_filter] at hs'
    exact henabled s' hs'.1 (by simpa using hs'.2)
  · rw [hdeact]
    exact hexid
  · rw [hdeact]
    simp only [getToolsDescription, catalogServers, getServers]
    rw [List.filter_filter]
    have hfe : List.filter (fun s => !s.disabled) (setDisabledFirst reg.servers id true) =
        List.filter (fun a => !a.disabled && !(a.id == id))
          (setDisabledFirst reg.servers id true) := by
      refine List.filter_congr ?_
      intro x hx
      by_cases hdis : x.disabled = false
      · have hne : (x.id == id) = false := by
          have := henabled x hx hdis
          simpa using this
        simp [hne, hdis]
      · have hdis' : x.disabled = true := by
          revert hdis
          cases x.disabled <;> simp
        simp [hdis']
    rw [hfe]
  · rw [hdeact]
    have hfind : (getServerById { servers := setDisabledFirst reg.servers id true } id).isSome := by
      apply List.find?_isSome.mpr
      obtain ⟨y, hy, hyid⟩ := hexid
      exact ⟨y, hy, by simpa using hyid⟩
    obtain ⟨z, hz⟩ := Option.isSome_iff_exists.mp hfind
    have hact : activateServer { servers := setDisabledFirst reg.servers id true } id =
        ({ servers := setDisabledFirst (setDisabledFirst reg.servers id true) id false }, true) := by
      simp [activateServer, hz]
    rw [hact]
    obtain ⟨y, hy, hyid, hydis⟩ := setDisabledFirst_activate_mem
      (setDisabledFirst reg.servers id true) id
      (by obtain ⟨y, hy, hyid⟩ := hexid; exact ⟨y, hy, hyid⟩)
    refine ⟨y, ?_, hyid⟩
    simp only [catalogServers, getServers, List.mem_filter]
    exact ⟨hy, by simp [hydis]⟩

theorem deactivate_excludes_from_catalog_witness :
    ((demoReg.servers.map (fun s => s.id)).Nodup ∧
      getServerById demoReg "calculator" = some calcServer) ∧
    ((deactivateServer demoReg "calculator").2 = true ∧
      (∀ s' ∈ catalogServers (deactivateServer demoReg "calculator").1, s'.id ≠ "calculator") ∧
      (∃ s' ∈ getServers (deactivateServer demoReg "calculator").1, s'.id = "calculator") ∧
      getToolsDescription (deactivateServer demoReg "calculator").1 =
        getToolsDescription
          { servers := (deactivateServer demoReg "calculator").1.servers.filter
              (fun s' => !(s'.id == "calculator")) } ∧
      (∃ s' ∈ catalogServers
          (activateServer (deactivateServer demoReg "calculator").1 "calculator").1,
          s'.id = "calculator")) :=
  ⟨⟨by decide, by decide⟩,
    deactivate_excludes_from_catalog demoReg "calculator" calcServer (by decide) (by decide)⟩

/-! ## Flow router: only registered flows are dispatched -/

/-- C10: `FlowRouter.routeQuery` never reports `shouldUseFlow = true` with a
flow id that does not resolve in the flow registry; when the oracle's
decision names an unknown flow id, the result is `shouldUseFlow = false`
together with a direct response. -/
theorem flowRouter_only_registered (freg : FlowRegistry) (userInput llmResponse : String) :
    ((flowRouteQuery freg userInput llmResponse).shouldUseFlow = true →
      ∃ fid flow, (flowRouteQuery freg userInput llmResponse).flowId = some (.str fid) ∧
        getFlowById freg fid = some flow) ∧
    (∀ span decision, braceMatch llmResponse.toList = some span →
      jsonParse (String.mk span) = some decision →
      serverListingGuard userInput = false →
      getField? decision "shouldUseFlow" = some (.bool true) →
      getFlowByJsId freg (getField? decision "flowId") = none →
      (flowRouteQuery freg userInput llmResponse).shouldUseFlow = false ∧
      (flowRouteQuery freg userInput llmResponse).directResponse ≠ none) := by
  constructor
  · unfold flowRouteQuery
    split
    · intro h; simp at h
    · split
      · intro h; simp at h
      · split
        · intro h; simp at h
        · split
          · split
            · split
              · intro h; simp at h
              · next flow hfound =>
                intro _
                rcases hfid : getField? ‹JValue› "flowId" with _ | v
                · rw [hfid] at hfound; simp [getFlowByJsId] at hfound
                · rw [hfid] at hfound
                  cases v with
                  | str s =>
                    exact ⟨s, flow, by simp [hfid], by simpa [getFlowByJsId] using hfound⟩
                  | _ => simp [getFlowByJsId] at hfound
            · intro h; simp at h
          · intro h; simp at h
  · intro span decision hbm hjp hg hsf hnone
    have hbm' : braceMatch llmResponse.data = some span := hbm
    constructor <;> simp [flowRouteQuery, hg, hbm', hjp, hsf, hnone]

/-! ## The JSON extraction span: greedy to the last brace -/

theorem braceMatch_skip (pre : List Char) (hpre : '\x7b' ∉ pre) (l : List Char) :
    braceMatch (pre ++ l) = braceMatch l := by
  induction pre with
  | nil => rfl
  | cons c rest ih =>
    have hc : (c == '\x7b') = false := by
      simp only [List.mem_cons, not_or] at hpre
      have : c ≠ '\x7b' := fun h => hpre.1 h.symm
      simpa using this
    have hrest : '\x7b' ∉ rest := by
      simp only [List.mem_cons, not_or] at hpre
      exact hpre.2
    simp only [List.cons_append, braceMatch, hc, Bool.false_eq_true, if_false]
    exact ih hrest

theorem findIdx?_append_of_none {α : Type} (p : α → Bool) (l₁ l₂ : List α)
    (h : ∀ x ∈ l₁, p x = false) :
    ∀ i, List.findIdx? p (l₁ ++ l₂) i = List.findIdx? p l₂ (i + l₁.length) := by
  induction l₁ with
  | nil => intro i; simp
  | cons a as ih =>
    intro i
    have ha : p a = false := h a (List.mem_cons_self a as)
    rw [List.cons_append, List.findIdx?_cons, ha]
    simp only [Bool.false_eq_true, if_false]
    rw [ih (fun x hx => h x (List.mem_cons_of_mem a hx)) (i + 1)]
    congr 1
    simp [List.length_cons]
    omega

theorem lastCloseBraceIdx?_append (mid post : List Char) (hpost : '\x7d' ∉ post) :
    lastCloseBraceIdx? (mid ++ '\x7d' :: post) = some mid.length := by
  unfold lastCloseBraceIdx?
  have hrev : (mid ++ '\x7d' :: post).reverse = post.reverse ++ '\x7d' :: mid.reverse := by
    simp
  rw [hrev]
  have hnone : ∀ x ∈ post.reverse, (x == '\x7d') = false := by
    intro x hx
    have : x ∈ post := List.mem_reverse.mp hx
    have : x ≠ '\x7d' := fun h => hpost (h ▸ this)
    simpa using this
  rw [findIdx?_append_of_none _ _ _ hnone 0]
  rw [List.findIdx?_cons]
  simp only [beq_self_eq_true, if_true]
  simp only [Option.map_some']
  congr 1
  simp [List.length_append, List.length_cons, List.length_reverse]

theorem braceMatch_first_to_last (mid post : List Char) (hpost : '\x7d' ∉ post) :
    braceMatch ('\x7b' :: (mid ++ '\x7d' :: post)) = some ('\x7b' :: (mid ++ ['\x7d'])) := by
  simp only [braceMatch, beq_self_eq_true, if_true]
  rw [lastCloseBraceIdx?_append mid post hpost]
  dsimp only
  have htake : (mid ++ '\x7d' :: post).take (mid.length + 1) = mid ++ ['\x7d'] := by
    have : mid ++ '\x7d' :: post = (mid ++ ['\x7d']) ++ post := by simp
    rw [this]
    exact List.take_left' (by simp)
  rw [htake]

/-- C6 (amended): the extraction step returns the span from the first `'{'`
of the text through the *last* `'}'` of the text (the greedy
`/\{[\s\S]*\}/` match), with the control characters
`\n \r \t \b \f \v` replaced by spaces — not the first balanced object
span. -/
theorem extractJson_greedy_characterization (pre mid post : List Char)
    (hpre : '\x7b' ∉ pre) (hpost : '\x7d' ∉ post) :
    extractJsonFromResponse (String.mk (pre ++ '\x7b' :: (mid ++ '\x7d' :: post))) =
      some (String.mk (cleanControlList ('\x7b' :: (mid ++ ['\x7d'])))) := by
  unfold extractJsonFromResponse
  have htl : (String.mk (pre ++ '\x7b' :: (mid ++ '\x7d' :: post))).toList =
      pre ++ '\x7b' :: (mid ++ '\x7d' :: post) := rfl
  rw [htl, braceMatch_skip pre hpre, braceMatch_first_to_last mid post hpost]
  rfl

theorem extractJson_greedy_characterization_witness :
    extractJsonFromResponse (String.mk ("Answer: ".toList ++
        '\x7b' :: ("\"a\":1".toList ++ '\x7d' :: " tail".toList))) =
      some (String.mk (cleanControlList ('\x7b' :: ("\"a\":1".toList ++ ['\x7d'])))) :=
  extractJson_greedy_characterization "Answer: ".toList "\"a\":1".toList " tail".toList
    (by decide) (by decide)

/-- C6 counterexample: on a complete JSON object followed by text containing
another `'}'`, the extraction is not the first balanced object span — the
greedy match runs through the trailing `'}'`. -/
theorem extractJson_counterexample :
    extractJsonFromResponse tailBraceResp = some "\x7b\"a\":1\x7d tail\x7d" ∧
    specFirstBalancedObjectSpan tailBraceResp = some "\x7b\"a\":1\x7d" ∧
    extractJsonFromResponse tailBraceResp ≠ specFirstBalancedObjectSpan tailBraceResp := by
  refine ⟨by rfl, by rfl, by decide⟩

/-! ## Object-field lemmas for the decision parser -/

theorem getField?_insertField_self (fields : List (String × JValue)) (k : String) (v : JValue) :
    getField? (JValue.obj (insertField fields k v)) k = some v := by
  induction fields with
  | nil => simp [insertField, getField?]
  | cons kv rest ih =>
    obtain ⟨k', v'⟩ := kv
    by_cases hb : (k' == k) = true
    · simp [insertField, hb, getField?]
    · simp only [insertField, hb, Bool.false_eq_true, if_false]
      simp only [getField?, List.find?_cons, hb] at ih ⊢
      exact ih

theorem getField?_insertField_ne (fields : List (String × JValue)) (k k₂ : String)
    (v : JValue) (h : k₂ ≠ k) :
    getField? (JValue.obj (insertField fields k v)) k₂ = getField? (JValue.obj fields) k₂ := by
  have hkk : (k == k₂) = false := by
    simp only [beq_eq_false_iff_ne]
    exact fun hh => h hh.symm
  induction fields with
  | nil => simp [insertField, getField?, hkk]
  | cons kv rest ih =>
    obtain ⟨k', v'⟩ := kv
    by_cases hb : (k' == k) = true
    · have hk' : k' = k := by simpa using hb
      have hq : (k' == k₂) = false := by rw [hk']; exact hkk
      simp [insertField, hb, getField?, List.find?_cons, hq]
    · simp only [insertField, hb, Bool.false_eq_true, if_false]
      by_cases hq : (k' == k₂) = true
      · simp [getField?, List.find?_cons, hq]
      · simp only [getField?, List.find?_cons, hq, Bool.false_eq_true, if_false] at ih ⊢
        exact ih

theorem insertField_of_getField? (fields : List (String × JValue)) (k : String) (v : JValue)
    (h : getField? (JValue.obj fields) k = some v) :
    insertField fields k v = fields := by
  induction fields with
  | nil => simp [getField?] at h
  | cons kv rest ih =>
    obtain ⟨k', v'⟩ := kv
    by_cases hb : (k' == k) = true
    · simp only [getField?, List.find?_cons, hb, if_true, Option.map_some',
        Option.some.injEq] at h
      simp [insertField, hb, h]
    · simp only [getField?, List.find?_cons, hb, Bool.false_eq_true, if_false] at h
      have h' : getField? (JValue.obj rest) k = some v := by simpa [getField?] using h
      simp [insertField, hb, ih h']

/-! ## Router decide: total, falls back on any parse/validation failure -/

/-- C2: for every oracle response, `routeQuery` either returns a decision
that passed parsing and validation, or returns the synthesized fallback
whose action is `direct_response`; in particular, a parsed `call_tool`
decision whose `serverId` is absent from the registry is never returned —
the result is the fallback. -/
theorem routeQuery_total_or_fallback (reg : ServerRegistry) (userInput llmResponse : String) :
    ((∃ d, parseToolDecisionResponse reg (extractedJsonOrRaw llmResponse) = .ok d ∧
        routeQuery reg userInput llmResponse = d) ∨
      (routeQuery reg userInput llmResponse = fallbackDecision userInput llmResponse ∧
        getField? (fallbackDecision userInput llmResponse) "action" =
          some (.str "direct_response"))) ∧
    (∀ j sid, jsonParse (cleanControl (extractedJsonOrRaw llmResponse)) = some j →
      actionIs j "call_tool" = true →
      (getField? j "tool").bind (fun t => getField? t "serverId") = some (.str sid) →
      getServerById reg sid = none →
      routeQuery reg userInput llmResponse = fallbackDecision userInput llmResponse) := by
  constructor
  · cases hp : parseToolDecisionResponse reg (extractedJsonOrRaw llmResponse) with
    | ok d =>
      left
      exact ⟨d, rfl, by unfold routeQuery; rw [hp]⟩
    | error e =>
      right
      exact ⟨by unfold routeQuery; rw [hp], rfl⟩
  · intro j sid hj hact hsid hnone
    obtain ⟨e, he⟩ :
        ∃ e, parseToolDecisionResponse reg (extractedJsonOrRaw llmResponse) = .error e := by
      simp only [parseToolDecisionResponse, hj, hact, if_true]
      split
      · exact ⟨_, rfl⟩
      · split
        · exact ⟨_, rfl⟩
        · rw [hsid]
          refine ⟨"Server not found", ?_⟩
          simp [getServerByJsId, hnone]
    unfold routeQuery
    rw [he]

set_option maxRecDepth 100000 in
theorem routeQuery_total_or_fallback_witness :
    routeQuery demoReg "check the weather" unknownServerResp =
      fallbackDecision "check the weather" unknownServerResp ∧
    getField? (fallbackDecision "check the weather" unknownServerResp) "action" =
      some (.str "direct_response") := by
  refine ⟨?_, rfl⟩
  exact (routeQuery_total_or_fallback demoReg "check the weather" unknownServerResp).2
    (.obj [("action", .str "call_tool"), ("response", .str "ok"), ("reasoning", .str "r"),
      ("tool", .obj [("serverId", .str "weather"), ("name", .str "forecast"),
        ("parameters", .obj []), ("missing_parameters", .arr [])])])
    "weather" (by rfl) (by rfl) (by rfl) (by rfl)

/-! ## Router decide: well-formed resolvable decisions pass through -/

theorem parse_passthrough (reg : ServerRegistry) (js : String)
    (parsedFields toolFields : List (String × JValue)) (sid tn : String)
    (ps : List (String × JValue)) (mp : List JValue)
    (server : MCPServerConfig) (tool : ToolConfig)
    (hparse : jsonParse (cleanControl js) = some (JValue.obj parsedFields))
    (haction : getField? (JValue.obj parsedFields) "action" = some (.str "call_tool"))
    (hresp : jsTruthy (getField? (JValue.obj parsedFields) "response") = true)
    (hreas : jsTruthy (getField? (JValue.obj parsedFields) "reasoning") = true)
    (htool : getField? (JValue.obj parsedFields) "tool" = some (JValue.obj toolFields))
    (hsid : getField? (JValue.obj toolFields) "serverId" = some (.str sid))
    (hsidne : sid ≠ "")
    (hname : getField? (JValue.obj toolFields) "name" = some (.str tn))
    (htnne : tn ≠ "")
    (hserver : getServerById reg sid = some server)
    (htoolfind : server.tools.find? (fun t => t.name == tn) = some tool)
    (hps : getField? (JValue.obj toolFields) "parameters" = some (JValue.obj ps))
    (hmp : getField? (JValue.obj toolFields) "missing_parameters" = some (JValue.arr mp)) :
    parseToolDecisionResponse reg js = .ok (JValue.obj parsedFields) := by
  have hact : actionIs (JValue.obj parsedFields) "call_tool" = true := by
    simp [actionIs, haction]
  have ht1 : jsTruthy (getField? (JValue.obj parsedFields) "action") = true := by
    rw [haction]; rfl
  have ht2' : jsTruthy (some (JValue.obj toolFields)) = true := rfl
  have ht3' : jsTruthy (some (JValue.obj ps)) = true := rfl
  have ht4' : jsTruthy (some (JValue.arr mp)) = true := rfl
  have ht5' : jsTruthy (some (JValue.str sid)) = true := by
    simp only [jsTruthy, bne_iff_ne, ne_eq]
    simpa using hsidne
  have ht6' : jsTruthy (some (JValue.str tn)) = true := by
    simp only [jsTruthy, bne_iff_ne, ne_eq]
    simpa using htnne
  simp [parseToolDecisionResponse, hparse, ht1, hresp, hreas, hact, htool, hsid, hname,
    hps, hmp, ht2', ht3', ht4', ht5', ht6', getServerByJsId, hserver, findToolOnServer,
    htoolfind, insertField_of_getField? parsedFields "tool" (JValue.obj toolFields) htool]

/-- C3: a well-formed `call_tool` decision whose `serverId` and tool name
resolve against the live registry to an enabled provider and existing tool,
and which carries its parameters, is returned by `routeQuery` unchanged —
with exactly that `serverId`, tool name, and parameter values — never
replaced by a fallback. -/
theorem routeQuery_passthrough (reg : ServerRegistry) (userInput llmResponse : String)
    (parsedFields toolFields : List (String × JValue)) (sid tn : String)
    (ps : List (String × JValue)) (mp : List JValue)
    (server : MCPServerConfig) (tool : ToolConfig)
    (hparse : jsonParse (cleanControl (extractedJsonOrRaw llmResponse)) =
      some (JValue.obj parsedFields))
    (haction : getField? (JValue.obj parsedFields) "action" = some (.str "call_tool"))
    (hresp : jsTruthy (getField? (JValue.obj parsedFields) "response") = true)
    (hreas : jsTruthy (getField? (JValue.obj parsedFields) "reasoning") = true)
    (htool : getField? (JValue.obj parsedFields) "tool" = some (JValue.obj toolFields))
    (hsid : getField? (JValue.obj toolFields) "serverId" = some (.str sid))
    (hsidne : sid ≠ "")
    (hname : getField? (JValue.obj toolFields) "name" = some (.str tn))
    (htnne : tn ≠ "")
    (hserver : getServerById reg sid = some server)
    (henabled : server.disabled = false)
    (htoolfind : server.tools.find? (fun t => t.name == tn) = some tool)
    (hps : getField? (JValue.obj toolFields) "parameters" = some (JValue.obj ps))
    (hmp : getField? (JValue.obj toolFields) "missing_parameters" = some (JValue.arr mp)) :
    routeQuery reg userInput llmResponse = JValue.obj parsedFields ∧
    (getField? (routeQuery reg userInput llmResponse) "tool").bind
      (fun t => getField? t "serverId") = some (.str sid) ∧
    (getField? (routeQuery reg userInput llmResponse) "tool").bind
      (fun t => getField? t "name") = some (.str tn) ∧
    (getField? (routeQuery reg userInput llmResponse) "tool").bind
      (fun t => getField? t "parameters") = some (JValue.obj ps) := by
  have hp := parse_passthrough reg (extractedJsonOrRaw llmResponse) parsedFields toolFields
    sid tn ps mp server tool hparse haction hresp hreas htool hsid hsidne hname htnne
    hserver htoolfind hps hmp
  have hr : routeQuery reg userInput llmResponse = JValue.obj parsedFields := by
    unfold routeQuery
    rw [hp]
  refine ⟨hr, ?_, ?_, ?_⟩ <;> rw [hr, htool] <;> simp [hsid, hname, hps]

set_option maxRecDepth 400000 in
theorem routeQuery_passthrough_witness :
    routeQuery demoReg "What is 5 plus 3?" callToolResp =
      JValue.obj [("action", .str "call_tool"), ("response", .str "I will add them."),
        ("reasoning", .str "math"),
        ("tool", .obj [("serverId", .str "calculator"), ("name", .str "add"),
          ("parameters", .obj [("a", .num "5"), ("b", .num "3")]),
          ("missing_parameters", .arr [])])] ∧
    (getField? (routeQuery demoReg "What is 5 plus 3?" callToolResp) "tool").bind
      (fun t => getField? t "serverId") = some (.str "calculator") ∧
    (getField? (routeQuery demoReg "What is 5 plus 3?" callToolResp) "tool").bind
      (fun t => getField? t "name") = some (.str "add") ∧
    (getField? (routeQuery demoReg "What is 5 plus 3?" callToolResp) "tool").bind
      (fun t => getField? t "parameters") =
        some (JValue.obj [("a", .num "5"), ("b", .num "3")]) := by
  exact routeQuery_passthrough demoReg "What is 5 plus 3?" callToolResp
    [("action", .str "call_tool"), ("response", .str "I will add them."),
      ("reasoning", .str "math"),
      ("tool", .obj [("serverId", .str "calculator"), ("name", .str "add"),
        ("parameters", .obj [("a", .num "5"), ("b", .num "3")]),
        ("missing_parameters", .arr [])])]
    [("serverId", .str "calculator"), ("name", .str "add"),
      ("parameters", .obj [("a", .num "5"), ("b", .num "3")]),
      ("missing_parameters", .arr [])]
    "calculator" "add" [("a", .num "5"), ("b", .num "3")] [] calcServer calcAddTool
    (by rfl) (by rfl) (by rfl) (by rfl) (by rfl) (by rfl) (by decide) (by rfl) (by decide)
    (by rfl) (by rfl) (by rfl) (by rfl) (by rfl)

/-! ## Dispatched invoke_tool decisions resolve in the registry -/

theorem getServerByJsId_some_elim (reg : ServerRegistry) (x : Option JValue)
    (server : MCPServerConfig) (h : getServerByJsId reg x = some server) :
    ∃ s0, x = some (.str s0) ∧ getServerById reg s0 = some server := by
  cases x with
  | none => simp [getServerByJsId] at h
  | some v =>
    cases v with
    | str s => exact ⟨s, rfl, by simpa [getServerByJsId] using h⟩
    | null => simp [getServerByJsId] at h
    | bool b => simp [getServerByJsId] at h
    | num r => simp [getServerByJsId] at h
    | arr a => simp [getServerByJsId] at h
    | obj f => simp [getServerByJsId] at h

theorem findToolOnServer_some_elim (server : MCPServerConfig) (x : Option JValue)
    (tool : ToolConfig) (h : findToolOnServer server x = some tool) :
    ∃ n0, x = some (.str n0) ∧ server.tools.find? (fun t => t.name == n0) = some tool := by
  cases x with
  | none => simp [findToolOnServer] at h
  | some v =>
    cases v with
    | str s => exact ⟨s, rfl, by simpa [findToolOnServer] using h⟩
    | null => simp [findToolOnServer] at h
    | bool b => simp [findToolOnServer] at h
    | num r => simp [findToolOnServer] at h
    | arr a => simp [findToolOnServer] at h
    | obj f => simp [findToolOnServer] at h

theorem getField?_double_patch (tf : List (String × JValue)) (target : String)
    (c1 c2 : Prop) [Decidable c1] [Decidable c2]
    (h1 : target ≠ "parameters") (h2 : target ≠ "missing_parameters") :
    getField? (JValue.obj
        (if c2 then (if c1 then tf else insertField tf "parameters" (JValue.obj []))
         else insertField (if c1 then tf else insertField tf "parameters" (JValue.obj []))
           "missing_parameters" (JValue.arr []))) target =
      getField? (JValue.obj tf) target := by
  have step1 : getField? (JValue.obj
      (if c1 then tf else insertField tf "parameters" (JValue.obj []))) target =
      getField? (JValue.obj tf) target := by
    split
    · rfl
    · exact getField?_insertField_ne _ _ _ _ h1
  split
  · exact step1
  · rw [getField?_insertField_ne _ _ _ _ h2]
    exact step1

theorem parse_ok_cases (reg : ServerRegistry) (js : String) (d : JValue)
    (h : parseToolDecisionResponse reg js = .ok d) :
    actionIs d "call_tool" = false ∨
    ∃ parsedFields toolFields server tool s0 n0,
      d = JValue.obj (insertField parsedFields "tool" (JValue.obj toolFields)) ∧
      getField? (JValue.obj toolFields) "serverId" = some (.str s0) ∧
      getField? (JValue.obj toolFields) "name" = some (.str n0) ∧
      getServerById reg s0 = some server ∧
      server.tools.find? (fun t => t.name == n0) = some tool := by
  simp only [parseToolDecisionResponse] at h
  rcases hjp : jsonParse (cleanControl js) with _ | parsed <;> simp only [hjp] at h
  · exact Except.noConfusion h
  · by_cases hg1 : (!jsTruthy (getField? parsed "action") ||
        !jsTruthy (getField? parsed "response") ||
        !jsTruthy (getField? parsed "reasoning")) = true
    · rw [if_pos hg1] at h
      exact Except.noConfusion h
    · rw [if_neg hg1] at h
      by_cases hcall : actionIs parsed "call_tool" = true
      · rw [if_pos hcall] at h
        by_cases hg2 : (!jsTruthy (getField? parsed "tool") ||
            !jsTruthy ((getField? parsed "tool").bind fun t => getField? t "serverId") ||
            !jsTruthy ((getField? parsed "tool").bind fun t => getField? t "name")) = true
        · rw [if_pos hg2] at h
          exact Except.noConfusion h
        · rw [if_neg hg2] at h
          rcases hfound : getServerByJsId reg
              ((getField? parsed "tool").bind fun t => getField? t "serverId")
            with _ | server <;> simp only [hfound] at h
          · exact Except.noConfusion h
          · rcases htf : findToolOnServer server
                ((getField? parsed "tool").bind fun t => getField? t "name")
              with _ | tool <;> simp only [htf] at h
            · exact Except.noConfusion h
            · rcases parsed with _ | b | r | s | es | PF
              · simp [getField?, getServerByJsId] at hfound
              · simp [getField?, getServerByJsId] at hfound
              · simp [getField?, getServerByJsId] at hfound
              · simp [getField?, getServerByJsId] at hfound
              · simp [getField?, getServerByJsId] at hfound
              · rcases hptool : getField? (JValue.obj PF) "tool" with _ | tv
                · rw [hptool] at hfound
                  simp [getServerByJsId] at hfound
                · rcases tv with _ | b2 | r2 | s2 | es2 | TF
                  · simp only [hptool] at h; exact Except.noConfusion h
                  · simp only [hptool] at h; exact Except.noConfusion h
                  · simp only [hptool] at h; exact Except.noConfusion h
                  · simp only [hptool] at h; exact Except.noConfusion h
                  · simp only [hptool] at h; exact Except.noConfusion h
                  · simp only [hptool] at h
                    rw [Except.ok.injEq] at h
                    subst h
                    rw [hptool] at hfound htf
                    have hfound' : getServerByJsId reg
                        (getField? (JValue.obj TF) "serverId") = some server := hfound
                    have htf' : findToolOnServer server
                        (getField? (JValue.obj TF) "name") = some tool := htf
                    obtain ⟨s0, hs0eq, hs0⟩ := getServerByJsId_some_elim reg _ server hfound'
                    obtain ⟨n0, hn0eq, hn0⟩ := findToolOnServer_some_elim server _ tool htf'
                    right
                    refine ⟨PF, _, server, tool, s0, n0, rfl, ?_, ?_, hs0, hn0⟩
                    · rw [getField?_double_patch _ _ _ _ (by decide) (by decide)]
                      exact hs0eq
                    · rw [getField?_double_patch _ _ _ _ (by decide) (by decide)]
                      exact hn0eq
      · rw [if_neg hcall] at h
        have hne : actionIs parsed "call_tool" = false := by
          revert hcall
          cases actionIs parsed "call_tool" <;> simp
        by_cases hmg : actionIsManagement parsed = true
        · rw [if_pos hmg] at h
          by_cases hg3 : (!jsTruthy (getField? parsed "server") ||
              !jsTruthy ((getField? parsed "server").bind fun s => getField? s "id")) = true
          · rw [if_pos hg3] at h
            exact Except.noConfusion h
          · rw [if_neg hg3] at h
            rw [Except.ok.injEq] at h
            subst h
            exact Or.inl hne
        · rw [if_neg hmg] at h
          rw [Except.ok.injEq] at h
          subst h
          exact Or.inl hne

/-- C1 (amended): whenever the Router validates an oracle output into a
`call_tool` decision (which the orchestrator then dispatches whenever
`missing_parameters` is empty), the named provider exists in the registry and
the named tool exists on that provider, and `execute` for that pair proceeds
past its fail-fast checks to the transport session.  The source checks
existence but not the `disabled` flag, so "enabled" cannot be added: see the
counterexample. -/
theorem dispatched_tool_resolves (reg : ServerRegistry) (userInput llmResponse : String)
    (sid tn : String)
    (hcall : actionIs (routeQuery reg userInput llmResponse) "call_tool" = true)
    (hsid : (getField? (routeQuery reg userInput llmResponse) "tool").bind
        (fun t => getField? t "serverId") = some (.str sid))
    (htn : (getField? (routeQuery reg userInput llmResponse) "tool").bind
        (fun t => getField? t "name") = some (.str tn)) :
    ∃ server tool, getServerById reg sid = some server ∧
      server.tools.find? (fun t => t.name == tn) = some tool ∧
      ∀ env args, execute env reg sid tn args = executeOnServer env server tn args := by
  cases hp : parseToolDecisionResponse reg (extractedJsonOrRaw llmResponse) with
  | error e =>
    have hr : routeQuery reg userInput llmResponse =
        fallbackDecision userInput llmResponse := by
      unfold routeQuery
      rw [hp]
    rw [hr] at hcall
    simp [fallbackDecision, actionIs, getField?, List.find?] at hcall
  | ok d =>
    have hr : routeQuery reg userInput llmResponse = d := by
      unfold routeQuery
      rw [hp]
    rw [hr] at hcall hsid htn
    rcases parse_ok_cases reg _ d hp with hfalse | hchar
    · rw [hfalse] at hcall
      simp at hcall
    · obtain ⟨PF, TF, server, tool, s0, n0, hd, hs, hn, hsrv, htf⟩ := hchar
      subst hd
      rw [getField?_insertField_self PF "tool" (JValue.obj TF)] at hsid htn
      have hsid' : getField? (JValue.obj TF) "serverId" = some (.str sid) := hsid
      have htn' : getField? (JValue.obj TF) "name" = some (.str tn) := htn
      rw [hs] at hsid'
      rw [hn] at htn'
      have hssid : s0 = sid := by simpa using hsid'
      have hntn : n0 = tn := by simpa using htn'
      subst hssid
      subst hntn
      refine ⟨server, tool, hsrv, htf, ?_⟩
      intro env args
      simp [execute, hsrv, htf]

set_option maxRecDepth 400000 in
theorem dispatched_tool_resolves_witness :
    ∃ server tool, getServerById demoReg "calculator" = some server ∧
      server.tools.find? (fun t => t.name == "add") = some tool ∧
      ∀ env args, execute env demoReg "calculator" "add" args =
        executeOnServer env server "add" args := by
  exact dispatched_tool_resolves demoReg "What is 5 plus 3?" callToolResp "calculator" "add"
    (by rfl) (by rfl) (by rfl)

set_option maxRecDepth 400000 in
/-- C1 counterexample: with the calculator provider disabled, the same
oracle output still validates into a `call_tool` decision naming it (the
validation path looks servers up without checking `disabled`), the decision
has no missing parameters — so the orchestrator dispatches it — and
`execute` opens a transport session (spawns the provider process) rather
than failing fast. -/
theorem disabled_provider_dispatch_counterexample :
    actionIs (routeQuery disabledCalcReg "What is 5 plus 3?" callToolResp) "call_tool"
        = true ∧
    (getField? (routeQuery disabledCalcReg "What is 5 plus 3?" callToolResp) "tool").bind
      (fun t => getField? t "serverId") = some (.str "calculator") ∧
    (getServerById disabledCalcReg "calculator").map (fun s => s.disabled) = some true ∧
    (getField? (routeQuery disabledCalcReg "What is 5 plus 3?" callToolResp) "tool").bind
      (fun t => getField? t "missing_parameters") = some (.arr []) ∧
    (execute demoRemote disabledCalcReg "calculator" "add"
        [("a", .num "5"), ("b", .num "3")]).1 =
      [.spawnStdio "node" [], .callTool "add" [("a", .num "5"), ("b", .num "3")],
        .closeTransport] := by
  exact ⟨by rfl, by rfl, by rfl, by rfl, by rfl⟩

set_option maxRecDepth 40000 in
theorem flowRouter_only_registered_witness :
    (flowRouteQuery demoFlowReg "please build me a new server" unknownFlowResp).shouldUseFlow
        = false ∧
    (flowRouteQuery demoFlowReg "please build me a new server" unknownFlowResp).directResponse
        ≠ none := by
  exact (flowRouter_only_registered demoFlowReg "please build me a new server"
      unknownFlowResp).2 unknownFlowResp.toList
    (.obj [("shouldUseFlow", .bool true), ("flowId", .str "bogus"),
      ("params", .obj []), ("reasoning", .str "r")])
    (by rfl) (by rfl) (by rfl) (by rfl) (by rfl)

end MCPRouter
